import Mathlib

/-!
Verification of the code-QA system (repository fetcher, chunker,
retrieval-index builder, query answerer) against its specification.

The Python sources are shallowly embedded below: pure helper functions
become Lean functions on `String` / `List Char`, the retry loops of
`rag_pipeline.py` become structural recursions over the list of loop
indices, and HTTP interaction is represented by explicit response data
passed as arguments.
-/

namespace CodeQA

/-- Boolean test that `pat` heads the list `l` (models str.startswith on
the character level). -/
def listStartsWith : List Char → List Char → Bool
  | [], _ => true
  | _ :: _, [] => false
  | a :: as, b :: bs => a == b && listStartsWith as bs

/-- Boolean test that `pat` ends the list `l` (models str.endswith). -/
def listEndsWith (pat l : List Char) : Bool :=
  listStartsWith pat.reverse l.reverse

/-- Boolean test that `needle` occurs contiguously inside `hay`
(models the Python `in` operator on strings). -/
def hasSub (needle : List Char) : List Char → Bool
  | [] => listStartsWith needle []
  | c :: rest => listStartsWith needle (c :: rest) || hasSub needle rest

/-- The characters of a string, lowercased (models str.lower). -/
def lowerChars (s : String) : List Char :=
  s.data.map Char.toLower

theorem listStartsWith_iff (a b : List Char) :
    listStartsWith a b = true ↔ a <+: b := by
  induction a generalizing b with
  | nil => simp [listStartsWith]
  | cons x xs ih =>
    cases b with
    | nil => simp [listStartsWith]
    | cons y ys =>
      simp only [listStartsWith, Bool.and_eq_true, beq_iff_eq, ih,
        List.cons_prefix_cons]

theorem listStartsWith_refl (l : List Char) : listStartsWith l l = true :=
  (listStartsWith_iff l l).mpr List.prefix_rfl

theorem listEndsWith_iff (pat l : List Char) :
    listEndsWith pat l = true ↔ pat <:+ l := by
  rw [listEndsWith, listStartsWith_iff, List.reverse_prefix]

theorem hasSub_append (needle pre : List Char) :
    hasSub needle (pre ++ needle) = true := by
  induction pre with
  | nil =>
    cases needle with
    | nil => simp [hasSub, listStartsWith]
    | cons c rest => simp [hasSub, listStartsWith_refl]
  | cons c cs ih =>
    simp [hasSub, ih]

/-! ## Chunker

The repository configures an external recursive text splitter
(`src/code_processor.py`, `text_splitter`) with target chunk size 3000
characters and overlap 500 characters; the splitting algorithm itself is
library code outside `src/`.
-/

/-- Target fragment length, from the `chunk_size` argument of the
splitter configuration in `src/code_processor.py`. -/
def chunk_size : Nat := 3000

/-- Overlap length, from the `chunk_overlap` argument of the splitter
configuration in `src/code_processor.py`. -/
def chunk_overlap : Nat := 500

/-- Modelled from the spec: the splitting algorithm of the external
text-splitter library is not part of `src/`. Per the spec, the chunker
produces an ordered sequence of source spans, each fragment at most the
target length, where each fragment after the first repeats the trailing
`overlap` characters of the previous fragment, and a file not exceeding
the target length yields a single span covering the whole file. The
fuel argument bounds the recursion; `n + 1` steps always suffice because
each step advances the start position. -/
def chunkSpansFrom (n : Nat) : Nat → Nat → List (Nat × Nat)
  | _, 0 => []
  | start, fuel + 1 =>
    if n ≤ start + chunk_size then [(start, n)]
    else (start, start + chunk_size) ::
      chunkSpansFrom n (start + chunk_size - chunk_overlap) fuel

/-- Modelled from the spec: the full span list for a file of `n`
characters. -/
def chunkSpans (n : Nat) : List (Nat × Nat) :=
  chunkSpansFrom n 0 (n + 1)

/-- The text of one span of the content. -/
def chunkOf (content : List Char) (sp : Nat × Nat) : List Char :=
  (content.drop sp.1).take (sp.2 - sp.1)

/-- Modelled from the spec: the chunk texts the splitter produces for a
file content (the `split_text` call in `src/code_processor.py`). -/
def split_text (content : List Char) : List (List Char) :=
  (chunkSpans content.length).map (chunkOf content)

/-- Claim C1: a file content shorter than the target chunk length
(3000 characters) is split into exactly one chunk whose text is the
whole content. -/
theorem claim_C1_short_file_single_chunk (content : List Char)
    (h : content.length < chunk_size) :
    split_text content = [content] := by
  have hle : content.length ≤ chunk_size := Nat.le_of_lt h
  simp [split_text, chunkSpans, chunkSpansFrom, hle, chunkOf]

/-- Witness for C1 at the concrete five-character content of
the string hello. -/
theorem claim_C1_witness :
    ("hello".data.length < chunk_size) ∧
      split_text "hello".data = ["hello".data] :=
  ⟨by decide, claim_C1_short_file_single_chunk "hello".data (by decide)⟩

/-- Adjacency invariant between two consecutive source spans of a file
of `n` characters: the earlier span is a full-size chunk, the later
span starts `chunk_overlap` characters before the earlier span ends,
the later span is at least `chunk_overlap` long, and the earlier span
stays inside the file. -/
def spanAdj (n : Nat) (p q : Nat × Nat) : Prop :=
  p.2 = p.1 + chunk_size ∧ q.1 + chunk_overlap = p.2 ∧
    chunk_overlap ≤ q.2 - q.1 ∧ chunk_overlap ≤ q.2 ∧ p.2 ≤ n

theorem chunkSpansFrom_head (n s fuel : Nat) (q : Nat × Nat)
    (t : List (Nat × Nat)) (h : chunkSpansFrom n s fuel = q :: t) :
    (q = (s, n) ∧ n ≤ s + chunk_size) ∨
      (q = (s, s + chunk_size) ∧ s + chunk_size < n) := by
  cases fuel with
  | zero => simp [chunkSpansFrom] at h
  | succ f =>
    rw [chunkSpansFrom] at h
    by_cases hc : n ≤ s + chunk_size
    · rw [if_pos hc] at h
      exact Or.inl ⟨(List.cons.injEq .. ▸ h).1.symm ▸ rfl, hc⟩
    · rw [if_neg hc] at h
      exact Or.inr ⟨(List.cons.injEq .. ▸ h).1.symm ▸ rfl, by omega⟩

theorem chunkSpansFrom_consec (n : Nat) (fuel : Nat) :
    ∀ (s : Nat) (pre : List (Nat × Nat)) (p q : Nat × Nat)
      (post : List (Nat × Nat)),
      chunkSpansFrom n s fuel = pre ++ p :: q :: post → spanAdj n p q := by
  induction fuel with
  | zero =>
    intro s pre p q post h
    simp [chunkSpansFrom] at h
  | succ f ih =>
    intro s pre p q post h
    rw [chunkSpansFrom] at h
    by_cases hc : n ≤ s + chunk_size
    · rw [if_pos hc] at h
      have : ([(s, n)] : List (Nat × Nat)).length = (pre ++ p :: q :: post).length := by
        rw [h]
      simp at this
      omega
    · rw [if_neg hc] at h
      cases pre with
      | nil =>
        simp only [List.nil_append] at h
        have hp : p = (s, s + chunk_size) := ((List.cons.injEq ..).mp h).1.symm
        have ht : chunkSpansFrom n (s + chunk_size - chunk_overlap) f =
            q :: post := ((List.cons.injEq ..).mp h).2
        have hhead := chunkSpansFrom_head n (s + chunk_size - chunk_overlap) f
          q post ht
        have hcs : chunk_overlap ≤ chunk_size := by decide
        rcases hhead with ⟨hq, hb⟩ | ⟨hq, hb⟩ <;>
          refine ⟨by rw [hp], ?_, ?_, ?_, ?_⟩ <;>
            simp [hp, hq, chunk_size, chunk_overlap] at * <;> omega
      | cons x pre' =>
        have ht : chunkSpansFrom n (s + chunk_size - chunk_overlap) f =
            pre' ++ p :: q :: post := by
          have := (List.cons.injEq ..).mp (by simpa using h)
          exact this.2
        exact ih (s + chunk_size - chunk_overlap) pre' p q post ht

theorem chunk_adj (content : List Char) (p q : Nat × Nat)
    (h : spanAdj content.length p q) :
    (chunkOf content p).drop ((chunkOf content p).length - chunk_overlap) =
      (chunkOf content q).take chunk_overlap := by
  obtain ⟨hfull, hstart, hlen, _, hin⟩ := h
  have hc : chunk_size = 3000 := rfl
  have ho : chunk_overlap = 500 := rfl
  have hlen1 : (chunkOf content p).length = chunk_size := by
    simp only [chunkOf, List.length_take, List.length_drop]
    omega
  rw [hlen1]
  simp only [chunkOf]
  rw [List.drop_take, List.take_take, List.drop_drop]
  have e1 : p.2 - p.1 - (chunk_size - chunk_overlap) =
      min chunk_overlap (q.2 - q.1) := by omega
  have e2 : p.1 + (chunk_size - chunk_overlap) = q.1 := by omega
  rw [e1, e2]

/-- Claim C2: when a file content exceeds the target chunk length, for
every pair of consecutive chunks produced from it, the trailing
`chunk_overlap` characters of the earlier chunk equal the leading
`chunk_overlap` characters of the later chunk. -/
theorem claim_C2_consecutive_chunks_overlap (content : List Char)
    (_hlong : chunk_size < content.length)
    (pre : List (List Char)) (c1 c2 : List Char) (post : List (List Char))
    (hsplit : split_text content = pre ++ c1 :: c2 :: post) :
    c1.drop (c1.length - chunk_overlap) = c2.take chunk_overlap := by
  rw [split_text] at hsplit
  obtain ⟨pre', rest, hspans, hpre, hrest⟩ :=
    List.map_eq_append_iff.mp hsplit
  cases rest with
  | nil => simp at hrest
  | cons p rest' =>
    cases rest' with
    | nil => simp at hrest
    | cons q post' =>
      simp only [List.map_cons, List.cons.injEq] at hrest
      have hadj : spanAdj content.length p q := by
        apply chunkSpansFrom_consec content.length (content.length + 1) 0
          pre' p q post'
        exact hspans
      have := chunk_adj content p q hadj
      rw [← hrest.1, ← hrest.2.1]
      exact this

theorem chunkSpansFrom_succ (n s f : Nat) :
    chunkSpansFrom n s (f + 1) =
      if n ≤ s + chunk_size then [(s, n)]
      else (s, s + chunk_size) ::
        chunkSpansFrom n (s + chunk_size - chunk_overlap) f := rfl

theorem chunkSpans_two (n : Nat) (h1 : chunk_size < n)
    (h2 : n ≤ chunk_size - chunk_overlap + chunk_size) :
    chunkSpans n = [(0, chunk_size), (chunk_size - chunk_overlap, n)] := by
  have hc : chunk_size = 3000 := rfl
  have ho : chunk_overlap = 500 := rfl
  cases n with
  | zero => omega
  | succ m =>
    rw [chunkSpans, chunkSpansFrom_succ, if_neg (by omega),
      chunkSpansFrom_succ, if_pos (by omega)]
    rw [Nat.zero_add]

theorem split_text_replicate_3001 :
    split_text (List.replicate 3001 'a') =
      [List.replicate 3000 'a', List.replicate 501 'a'] := by
  have h1 : (List.replicate 3001 'a').length = 3001 := by
    rw [List.length_replicate]
  rw [split_text, h1,
    chunkSpans_two 3001 (by norm_num [chunk_size])
      (by norm_num [chunk_size, chunk_overlap]),
    List.map_cons, List.map_cons, List.map_nil]
  have e1 : chunkOf (List.replicate 3001 'a') (0, chunk_size) =
      List.replicate 3000 'a' := by
    show ((List.replicate 3001 'a').drop 0).take (chunk_size - 0) =
      List.replicate 3000 'a'
    rw [List.drop_replicate, List.take_replicate]
    have e : min (chunk_size - 0) (3001 - 0) = 3000 := by
      norm_num [chunk_size]
    rw [e]
  have e2 : chunkOf (List.replicate 3001 'a') (chunk_size - chunk_overlap, 3001) =
      List.replicate 501 'a' := by
    show ((List.replicate 3001 'a').drop (chunk_size - chunk_overlap)).take
        (3001 - (chunk_size - chunk_overlap)) = List.replicate 501 'a'
    rw [List.drop_replicate, List.take_replicate]
    have e : min (3001 - (chunk_size - chunk_overlap))
        (3001 - (chunk_size - chunk_overlap)) = 501 := by
      norm_num [chunk_size, chunk_overlap]
    rw [e]
  rw [e1, e2]

/-- Witness for C2: a file of 3001 identical characters splits into two
chunks, and the trailing 500 characters of the first equal the leading
500 characters of the second. -/
theorem claim_C2_witness :
    chunk_size < (List.replicate 3001 'a').length ∧
      (List.replicate 3000 'a').drop ((List.replicate 3000 'a').length - chunk_overlap) =
        (List.replicate 501 'a').take chunk_overlap := by
  refine ⟨by norm_num [chunk_size], ?_⟩
  exact claim_C2_consecutive_chunks_overlap (List.replicate 3001 'a')
    (by norm_num [chunk_size]) [] (List.replicate 3000 'a')
    (List.replicate 501 'a') [] split_text_replicate_3001

/-! ## Repository fetcher: directory-listing error classification

Embeds the status-code dispatch of `get_repo_contents` in
`src/code_processor.py`.
-/

/-- The distinct error kinds the fetcher reports for a directory
listing response (spec section 7 taxonomy). -/
inductive FetchError where
  | RateLimitExceeded
  | AuthenticationRequired
  | AccessDenied
  | NotFound
  | UpstreamError
deriving DecidableEq

/-- The rate-limit indication test of `get_repo_contents`: the source
checks the lowercased response body for the substring
rate limit exceeded. -/
def bodyIndicatesRateLimit (text : String) : Bool :=
  hasSub "rate limit exceeded".data (lowerChars text)

/-- The error classification of `get_repo_contents` in
`src/code_processor.py`: given whether a GitHub token is configured,
the HTTP status code, and the response body, returns the raised error
kind, or `none` when the function proceeds to return the parsed
response. -/
def classifyContentsResponse (hasToken : Bool) (status : Nat)
    (text : String) : Option FetchError :=
  if status = 403 then
    if bodyIndicatesRateLimit text then some .RateLimitExceeded
    else if !hasToken then some .AuthenticationRequired
    else some .AccessDenied
  else if status = 404 then some .NotFound
  else if status ≠ 200 then some .UpstreamError
  else none

/-- Counterexample for C3 as stated, in both places the claim deviates
from the source. First, the claim says a 2xx response yields no error,
but the source treats every status other than 200 as an upstream
failure, so the 2xx status 201 is classified as `UpstreamError` rather
than succeeding. Second, the claim says a 403 whose body contains
rate limit yields `RateLimitExceeded`, but the source tests the longer
substring rate limit exceeded, so a 403 whose body is the string
rate limit reached — which does contain rate limit — is classified as
`AccessDenied` instead. -/
theorem claim_C3_counterexample :
    (classifyContentsResponse true 201 "" = some FetchError.UpstreamError ∧
      200 ≤ 201 ∧ 201 < 300) ∧
    (hasSub "rate limit".data (lowerChars "rate limit reached") = true ∧
      classifyContentsResponse true 403 "rate limit reached" =
        some FetchError.AccessDenied) := by
  decide

/-- Claim C3 (amended): a 403 whose lowercased body contains the
substring rate limit exceeded yields `RateLimitExceeded`; a 403 without
that indication and with no token configured yields
`AuthenticationRequired`; any other 403 yields `AccessDenied`; a 404
yields `NotFound`; any other status different from 200 (2xx statuses
other than 200 included) yields `UpstreamError`; a 200 response yields
no error. -/
theorem claim_C3_classification (hasToken : Bool) (status : Nat)
    (text : String) :
    (status = 403 → bodyIndicatesRateLimit text = true →
      classifyContentsResponse hasToken status text =
        some FetchError.RateLimitExceeded) ∧
    (status = 403 → bodyIndicatesRateLimit text = false → hasToken = false →
      classifyContentsResponse hasToken status text =
        some FetchError.AuthenticationRequired) ∧
    (status = 403 → bodyIndicatesRateLimit text = false → hasToken = true →
      classifyContentsResponse hasToken status text =
        some FetchError.AccessDenied) ∧
    (status = 404 →
      classifyContentsResponse hasToken status text =
        some FetchError.NotFound) ∧
    (status ≠ 403 → status ≠ 404 → status ≠ 200 →
      classifyContentsResponse hasToken status text =
        some FetchError.UpstreamError) ∧
    (status = 200 →
      classifyContentsResponse hasToken status text = none) := by
  refine ⟨?_, ?_, ?_, ?_, ?_, ?_⟩ <;>
    intros <;> simp_all [classifyContentsResponse]

/-- Witness for C3: concrete responses exercising the rate-limit,
authentication, not-found and success branches. -/
theorem claim_C3_witness :
    classifyContentsResponse true 403 "API Rate Limit Exceeded for ip" =
      some FetchError.RateLimitExceeded ∧
    classifyContentsResponse false 403 "forbidden" =
      some FetchError.AuthenticationRequired ∧
    classifyContentsResponse true 404 "missing" = some FetchError.NotFound ∧
    classifyContentsResponse false 200 "ok" = none :=
  ⟨(claim_C3_classification true 403 "API Rate Limit Exceeded for ip").1
      rfl (by decide),
   (claim_C3_classification false 403 "forbidden").2.1 rfl (by decide) rfl,
   (claim_C3_classification true 404 "missing").2.2.2.1 rfl,
   (claim_C3_classification false 200 "ok").2.2.2.2.2 rfl⟩

/-! ## Repository fetcher: code-file selection

Embeds `is_code_file` and the per-item selection condition of
`process_contents` in `src/code_processor.py`.
-/

/-- The fixed extension set of `is_code_file` in
`src/code_processor.py`. -/
def code_extensions : List String :=
  [".py", ".js", ".java", ".cpp", ".h", ".cs", ".rb", ".go", ".ts",
   ".tsx", ".jsx"]

/-- `is_code_file` from `src/code_processor.py`: the filename is
lowercased and tested against each recognized extension with
str.endswith. -/
def is_code_file (filename : String) : Bool :=
  code_extensions.any fun ext => listEndsWith ext.data (lowerChars filename)

/-- One entry of a directory-listing response: its `type` field
(file or dir) and its `name` field. -/
structure ListingItem where
  type : String
  name : String
deriving DecidableEq

/-- The selection condition of `process_contents` in
`src/code_processor.py`: an item is processed as a source file when its
type is file and `is_code_file` accepts its name. -/
def selectedItems (items : List ListingItem) : List ListingItem :=
  items.filter fun it => it.type == "file" && is_code_file it.name

theorem is_code_file_iff (filename : String) :
    is_code_file filename = true ↔
      ∃ ext ∈ code_extensions, ext.data <:+ lowerChars filename := by
  rw [is_code_file, List.any_eq_true]
  constructor
  · rintro ⟨ext, hmem, hend⟩
    exact ⟨ext, hmem, (listEndsWith_iff ext.data (lowerChars filename)).mp hend⟩
  · rintro ⟨ext, hmem, hend⟩
    exact ⟨ext, hmem, (listEndsWith_iff ext.data (lowerChars filename)).mpr hend⟩

/-- Counterexample for C6 as stated: the uppercase filename A.PY is
selected by the fetcher although its name does not end with any
extension of the fixed set, which are all lowercase. -/
theorem claim_C6_counterexample :
    selectedItems [⟨"file", "A.PY"⟩] = [⟨"file", "A.PY"⟩] ∧
      (code_extensions.all fun ext =>
        !(listEndsWith ext.data "A.PY".data)) = true := by
  decide

/-- Claim C6 (amended): for every repository listing, the fetcher
selects exactly those items of type file whose lowercased name ends
with an extension of the fixed set; in particular, among the files
a.py, b.txt, c.go it selects a.py and c.go only. -/
theorem claim_C6_selection :
    (∀ (items : List ListingItem) (it : ListingItem),
      it ∈ selectedItems items ↔
        it ∈ items ∧ it.type = "file" ∧
          ∃ ext ∈ code_extensions, ext.data <:+ lowerChars it.name) ∧
    selectedItems
        [⟨"file", "a.py"⟩, ⟨"file", "b.txt"⟩, ⟨"file", "c.go"⟩] =
      [⟨"file", "a.py"⟩, ⟨"file", "c.go"⟩] := by
  constructor
  · intro items it
    rw [selectedItems, List.mem_filter, Bool.and_eq_true, beq_iff_eq,
      is_code_file_iff]
  · decide

/-- Witness for C6: instantiating the membership characterization at
the concrete listing of the claim. -/
theorem claim_C6_witness :
    (⟨"file", "a.py"⟩ : ListingItem) ∈
        selectedItems
          [⟨"file", "a.py"⟩, ⟨"file", "b.txt"⟩, ⟨"file", "c.go"⟩] ↔
      (⟨"file", "a.py"⟩ : ListingItem) ∈
          ([⟨"file", "a.py"⟩, ⟨"file", "b.txt"⟩, ⟨"file", "c.go"⟩] :
            List ListingItem) ∧
        ("file" : String) = "file" ∧
          ∃ ext ∈ code_extensions, ext.data <:+ lowerChars "a.py" :=
  claim_C6_selection.1
    [⟨"file", "a.py"⟩, ⟨"file", "b.txt"⟩, ⟨"file", "c.go"⟩]
    ⟨"file", "a.py"⟩

/-- Claim C10: the extension filter is case-insensitive: a filename is
accepted exactly when its lowercased form ends with one of the
recognized extensions; in particular MAIN.PY and app.Go are accepted
although the extension set lists lowercase extensions only. -/
theorem claim_C10_case_insensitive :
    (∀ filename : String,
      is_code_file filename = true ↔
        ∃ ext ∈ code_extensions, ext.data <:+ lowerChars filename) ∧
    is_code_file "MAIN.PY" = true ∧ is_code_file "app.Go" = true := by
  refine ⟨is_code_file_iff, by decide, by decide⟩

/-- Witness for C10: instantiating the equivalence at the concrete
filename MAIN.PY. -/
theorem claim_C10_witness :
    is_code_file "MAIN.PY" = true ↔
      ∃ ext ∈ code_extensions, ext.data <:+ lowerChars "MAIN.PY" :=
  claim_C10_case_insensitive.1 "MAIN.PY"

/-! ## Repository fetcher: per-file processing

Embeds the per-file loop body of `process_contents` in
`src/code_processor.py`: a code file is downloaded, split into chunks
and turned into documents; a non-200 download status is skipped with a
bare continue, and an exception while downloading or chunking is caught,
printed and skipped.
-/

/-- The outcome of downloading one file: an HTTP response with a status
and a body, or an exception raised while downloading or chunking. -/
inductive DlResult where
  | resp (status : Nat) (text : String)
  | exn (msg : String)
deriving DecidableEq

/-- One entry of the repository tree: a file together with the outcome
of its download, or a directory with its children. The path field is
the repository path of the entry. -/
inductive Entry where
  | file (name path : String) (dl : DlResult)
  | dir (name path : String) (children : List Entry)

/-- A document produced for one chunk, with the metadata attached by
`process_contents`. -/
structure Doc where
  page_content : List Char
  file_name : String
  file_path : String
  chunk_id : Nat
deriving DecidableEq

/-- The documents built for one downloaded file: one per chunk, with
the chunk ordinal as `chunk_id`. -/
def docsForFile (name path : String) (content : String) : List Doc :=
  (split_text content.data).enum.map fun p => ⟨p.2, name, path, p.1⟩

/-- The warning printed for one failing file: the except branch of
`process_contents` prints an error line naming the file path; a non-200
download status is skipped without printing. -/
def warnOf (path : String) : DlResult → List String
  | .resp _ _ => []
  | .exn msg => ["Error processing file " ++ path ++ ": " ++ msg]

/-- The per-entry traversal of `process_contents`: returns the
documents collected and the warning lines printed, in order. -/
def processEntries : List Entry → List Doc × List String
  | [] => ([], [])
  | .file name path (.resp status text) :: rest =>
    if is_code_file name then
      if status ≠ 200 then processEntries rest
      else (docsForFile name path text ++ (processEntries rest).1,
        (processEntries rest).2)
    else processEntries rest
  | .file name path (.exn msg) :: rest =>
    if is_code_file name then
      ((processEntries rest).1,
        warnOf path (.exn msg) ++ (processEntries rest).2)
    else processEntries rest
  | .dir _ _ children :: rest =>
    ((processEntries children).1 ++ (processEntries rest).1,
      (processEntries children).2 ++ (processEntries rest).2)

/-- Whether the download of a file failed: either a non-200 status or
an exception. -/
def dlFailed : DlResult → Bool
  | .resp status _ => status ≠ 200
  | .exn _ => true

/-- Counterexample for C7 as stated: a code file whose download returns
status 404 is skipped silently, with no logged warning, while the claim
says every failed single-file download is skipped with a logged
warning. -/
theorem claim_C7_counterexample :
    dlFailed (DlResult.resp 404 "") = true ∧
      processEntries [Entry.file "a.py" "a.py" (DlResult.resp 404 "")] =
        ([], []) := by
  constructor
  · decide
  · simp [processEntries]

/-- Claim C7 (amended): a failed single-file download never aborts the
fetch: the entry is skipped and the documents returned are exactly
those of all other files; a warning line is logged when the failure is
an exception raised while downloading or chunking, while a non-200
download status is skipped silently. -/
theorem claim_C7_failed_file_skipped (before after : List Entry)
    (name path : String) (dl : DlResult)
    (hfail : dlFailed dl = true) :
    (processEntries (before ++ Entry.file name path dl :: after)).1 =
        (processEntries (before ++ after)).1 ∧
      (processEntries (before ++ Entry.file name path dl :: after)).2 =
        (processEntries before).2 ++
          (if is_code_file name then warnOf path dl else []) ++
          (processEntries after).2 := by
  induction before with
  | nil =>
    simp only [List.nil_append]
    cases dl with
    | resp status text =>
      have hs : status ≠ 200 := by
        by_contra hc
        simp [dlFailed, hc] at hfail
      by_cases hcode : is_code_file name <;>
        simp [processEntries, hcode, hs, warnOf]
    | exn msg =>
      by_cases hcode : is_code_file name <;>
        simp [processEntries, hcode, warnOf]
  | cons e rest ih =>
    cases e with
    | file n2 p2 d2 =>
      by_cases hcode : is_code_file n2
      · cases d2 with
        | resp st2 tx2 =>
          by_cases hs2 : st2 ≠ 200 <;>
            simp [processEntries, hcode, hs2, ih.1, ih.2, warnOf,
              List.append_assoc]
        | exn m2 =>
          simp [processEntries, hcode, ih.1, ih.2, warnOf,
            List.append_assoc]
      · cases d2 <;> simp [processEntries, hcode, ih.1, ih.2]
    | dir n2 p2 ch2 =>
      simp [processEntries, ih.1, ih.2, List.append_assoc]

/-- Witness for C7: a concrete listing where the middle file raises an
exception while downloading; the documents are those of the two healthy
files and one warning line is printed. -/
theorem claim_C7_witness :
    dlFailed (DlResult.exn "boom") = true ∧
      (processEntries
          [Entry.file "a.py" "a.py" (DlResult.resp 200 "x"),
           Entry.file "b.py" "b.py" (DlResult.exn "boom"),
           Entry.file "c.py" "c.py" (DlResult.resp 200 "y")]).1 =
        (processEntries
          [Entry.file "a.py" "a.py" (DlResult.resp 200 "x"),
           Entry.file "c.py" "c.py" (DlResult.resp 200 "y")]).1 ∧
      (processEntries
          [Entry.file "a.py" "a.py" (DlResult.resp 200 "x"),
           Entry.file "b.py" "b.py" (DlResult.exn "boom"),
           Entry.file "c.py" "c.py" (DlResult.resp 200 "y")]).2 =
        (processEntries [Entry.file "a.py" "a.py" (DlResult.resp 200 "x")]).2 ++
          (if is_code_file "b.py" then warnOf "b.py" (DlResult.exn "boom")
            else []) ++
          (processEntries [Entry.file "c.py" "c.py" (DlResult.resp 200 "y")]).2 := by
  refine ⟨by decide, ?_, ?_⟩
  · exact (claim_C7_failed_file_skipped
      [Entry.file "a.py" "a.py" (DlResult.resp 200 "x")]
      [Entry.file "c.py" "c.py" (DlResult.resp 200 "y")]
      "b.py" "b.py" (DlResult.exn "boom") (by decide)).1
  · exact (claim_C7_failed_file_skipped
      [Entry.file "a.py" "a.py" (DlResult.resp 200 "x")]
      [Entry.file "c.py" "c.py" (DlResult.resp 200 "y")]
      "b.py" "b.py" (DlResult.exn "boom") (by decide)).2

/-! ## Retrieval index builder: embedding retry loop

Embeds the retry loop of `setup_rag_pipeline` in `src/rag_pipeline.py`.
The loop body attempts to initialize embeddings; the outcome of each
attempt is given as a function from the attempt number.
-/

/-- The outcome of one embedding-initialization attempt: success, or an
exception with its message. -/
inductive EmbedAttempt where
  | ok
  | err (msg : String)
deriving DecidableEq

/-- The model-access-pending signature tested by `setup_rag_pipeline`:
the error message contains one of the two access-propagation
substrings. -/
def isPendingEmbedMsg (msg : String) : Bool :=
  hasSub "does not have access to model".data msg.data ||
    hasSub "not allowed to generate embeddings".data msg.data

/-- Whether one attempt outcome is the pending failure. -/
def isPendingAttempt : EmbedAttempt → Bool
  | .ok => false
  | .err msg => isPendingEmbedMsg msg

/-- How the index build ends: the loop broke with initialized
embeddings, the access-pending message was raised after exhausting
retries, a non-pending failure was raised immediately, or the loop ran
zero iterations (only possible with `max_retries = 0`, where the Python
source would fall through to an unbound variable). -/
inductive SetupResult where
  | success
  | accessPending
  | embedError (msg : String)
  | fellThrough
deriving DecidableEq

/-- A trace of the retry loop: how many attempts ran, the sleep
durations performed in order, and how the loop ended. -/
structure LoopTrace where
  attempts : Nat
  sleeps : List Nat
  result : SetupResult
deriving DecidableEq

/-- The retry loop of `setup_rag_pipeline`, iterating over the
remaining attempt indices of range max_retries: on a pending failure
before the last attempt it sleeps 2 to the power attempt and continues;
on a pending failure at the last attempt it raises the access-pending
error; on any other failure it raises immediately. -/
def setupGo (outcomes : Nat → EmbedAttempt) (maxRetries : Nat) :
    List Nat → LoopTrace
  | [] => ⟨0, [], .fellThrough⟩
  | attempt :: rest =>
    match outcomes attempt with
    | .ok => ⟨1, [], .success⟩
    | .err msg =>
      if isPendingEmbedMsg msg then
        if attempt < maxRetries - 1 then
          ⟨(setupGo outcomes maxRetries rest).attempts + 1,
            2 ^ attempt :: (setupGo outcomes maxRetries rest).sleeps,
            (setupGo outcomes maxRetries rest).result⟩
        else ⟨1, [], .accessPending⟩
      else ⟨1, [], .embedError msg⟩

/-- `setup_rag_pipeline` from `src/rag_pipeline.py`, as the trace of
its retry loop. -/
def setup_rag_pipeline (outcomes : Nat → EmbedAttempt)
    (maxRetries : Nat) : LoopTrace :=
  setupGo outcomes maxRetries (List.range maxRetries)

theorem pow_sleeps (a m : Nat) :
    2 ^ a :: (List.range m).map (fun j => 2 ^ (a + 1 + j)) =
      (List.range (m + 1)).map (fun j => 2 ^ (a + j)) := by
  rw [List.range_succ_eq_map, List.map_cons, List.map_map]
  simp only [List.cons.injEq]
  refine ⟨by simp, ?_⟩
  apply List.map_congr_left
  intro j _
  simp only [Function.comp_apply]
  exact congrArg (fun t => 2 ^ t) (by omega)

theorem setupGo_all_pending (outcomes : Nat → EmbedAttempt)
    (maxRetries : Nat) :
    ∀ (k a : Nat), a + k = maxRetries → 1 ≤ k →
      (∀ i, a ≤ i → i < maxRetries → isPendingAttempt (outcomes i) = true) →
      setupGo outcomes maxRetries (List.range' a k) =
        ⟨k, (List.range (k - 1)).map (fun j => 2 ^ (a + j)),
          .accessPending⟩ := by
  intro k
  induction k with
  | zero => omega
  | succ m ih =>
    intro a hsum _ hpend
    have hp : isPendingAttempt (outcomes a) = true := by
      apply hpend a (Nat.le_refl a); omega
    cases hout : outcomes a with
    | ok => rw [hout] at hp; simp [isPendingAttempt] at hp
    | err msg =>
      rw [hout] at hp
      simp only [isPendingAttempt] at hp
      rw [List.range'_succ]
      simp only [setupGo, hout]
      rw [if_pos hp]
      cases m with
      | zero =>
        have hnl : ¬ a < maxRetries - 1 := by omega
        rw [if_neg hnl]
        simp
      | succ m2 =>
        have hlt : a < maxRetries - 1 := by omega
        rw [if_pos hlt,
          ih (a + 1) (by omega) (by omega)
            (fun i h1 h2 => hpend i (by omega) h2)]
        simp only [LoopTrace.mk.injEq, Nat.add_sub_cancel]
        exact ⟨trivial, pow_sleeps a m2, trivial⟩

theorem setupGo_pending_then (outcomes : Nat → EmbedAttempt)
    (maxRetries : Nat) :
    ∀ (j k a : Nat), j < k → a + k = maxRetries →
      (∀ i, a ≤ i → i < a + j → isPendingAttempt (outcomes i) = true) →
      ((outcomes (a + j) = .ok →
        (setupGo outcomes maxRetries (List.range' a k)).result =
          .success) ∧
       (∀ msg, outcomes (a + j) = .err msg → isPendingEmbedMsg msg = false →
        setupGo outcomes maxRetries (List.range' a k) =
          ⟨j + 1, (List.range j).map (fun i => 2 ^ (a + i)),
            .embedError msg⟩)) := by
  intro j
  induction j with
  | zero =>
    intro k a hjk hsum _
    constructor
    · intro hok
      cases k with
      | zero => omega
      | succ m =>
        rw [Nat.add_zero] at hok
        rw [List.range'_succ]
        simp only [setupGo, hok]
    · intro msg herr hnp
      cases k with
      | zero => omega
      | succ m =>
        rw [Nat.add_zero] at herr
        rw [List.range'_succ]
        simp only [setupGo, herr, hnp, Bool.false_eq_true, if_false,
          List.range_zero, List.map_nil]
  | succ j2 ih =>
    intro k a hjk hsum hpend
    have hp : isPendingAttempt (outcomes a) = true := by
      apply hpend a (Nat.le_refl a); omega
    cases k with
    | zero => omega
    | succ m =>
      have hrec := ih m (a + 1) (by omega) (by omega)
        (fun i h1 h2 => hpend i (by omega) (by omega))
      have hlt : a < maxRetries - 1 := by omega
      constructor
      · intro hok
        cases hout : outcomes a with
        | ok => rw [hout] at hp; simp [isPendingAttempt] at hp
        | err msg =>
          rw [hout] at hp
          simp only [isPendingAttempt] at hp
          rw [List.range'_succ]
          simp only [setupGo, hout]
          rw [if_pos hp, if_pos hlt]
          exact hrec.1 (by rw [show a + 1 + j2 = a + (j2 + 1) by omega]; exact hok)
      · intro msg herr hnp
        cases hout : outcomes a with
        | ok => rw [hout] at hp; simp [isPendingAttempt] at hp
        | err m0 =>
          rw [hout] at hp
          simp only [isPendingAttempt] at hp
          rw [List.range'_succ]
          simp only [setupGo, hout]
          rw [if_pos hp, if_pos hlt,
            hrec.2 msg (by rw [show a + 1 + j2 = a + (j2 + 1) by omega]; exact herr) hnp]
          simp only [LoopTrace.mk.injEq]
          exact ⟨trivial, pow_sleeps a j2, trivial⟩

/-- Claim C4: with at least one allowed attempt, (a) if every attempt
fails with the model-access-pending signature, the build makes exactly
`maxRetries` attempts, sleeps 1, 2, 4, ... time units (2 to the power
of the attempt number) between attempts, and ends access-pending;
(b) if the first attempts fail pending and a later attempt within the
budget succeeds, the build succeeds; (c) if a non-pending failure
occurs after pending failures, the build fails immediately with the
embedding error carrying that message, having made only the attempts up
to and including the failing one. -/
theorem claim_C4_embedding_retry (outcomes : Nat → EmbedAttempt)
    (maxRetries : Nat) (hpos : 1 ≤ maxRetries) :
    ((∀ i, i < maxRetries → isPendingAttempt (outcomes i) = true) →
      setup_rag_pipeline outcomes maxRetries =
        ⟨maxRetries, (List.range (maxRetries - 1)).map (fun j => 2 ^ j),
          .accessPending⟩) ∧
    (∀ j, j < maxRetries →
      (∀ i, i < j → isPendingAttempt (outcomes i) = true) →
      outcomes j = .ok →
      (setup_rag_pipeline outcomes maxRetries).result = .success) ∧
    (∀ j msg, j < maxRetries →
      (∀ i, i < j → isPendingAttempt (outcomes i) = true) →
      outcomes j = .err msg → isPendingEmbedMsg msg = false →
      setup_rag_pipeline outcomes maxRetries =
        ⟨j + 1, (List.range j).map (fun i => 2 ^ i), .embedError msg⟩) := by
  refine ⟨?_, ?_, ?_⟩
  · intro hpend
    rw [setup_rag_pipeline, List.range_eq_range',
      setupGo_all_pending outcomes maxRetries maxRetries 0 (by omega) hpos
        (fun i _ h2 => hpend i h2)]
    simp only [LoopTrace.mk.injEq]
    refine ⟨trivial, ?_, trivial⟩
    apply List.map_congr_left
    intro j _
    rw [Nat.zero_add]
  · intro j hj hpend hok
    rw [setup_rag_pipeline, List.range_eq_range']
    exact (setupGo_pending_then outcomes maxRetries j maxRetries 0 hj
        (by omega) (fun i _ h2 => hpend i (by omega))).1
      (by rw [Nat.zero_add]; exact hok)
  · intro j msg hj hpend herr hnp
    rw [setup_rag_pipeline, List.range_eq_range']
    rw [(setupGo_pending_then outcomes maxRetries j maxRetries 0 hj
        (by omega) (fun i _ h2 => hpend i (by omega))).2 msg
      (by rw [Nat.zero_add]; exact herr) hnp]
    simp only [LoopTrace.mk.injEq]
    refine ⟨trivial, ?_, trivial⟩
    apply List.map_congr_left
    intro i _
    rw [Nat.zero_add]

/-- Witness for C4: concrete outcome sequences with max_retries 3:
always-pending ends access-pending after 3 attempts with sleeps 1 and
2; pending-pending-success succeeds; a hard failure on the second
attempt ends immediately with the embedding error after one sleep. -/
theorem claim_C4_witness :
    setup_rag_pipeline (fun _ => .err "org does not have access to model x") 3 =
        ⟨3, [1, 2], .accessPending⟩ ∧
      (setup_rag_pipeline
          (fun i => if i < 2 then .err "does not have access to model" else .ok)
          3).result = .success ∧
      setup_rag_pipeline
          (fun i => if i = 0 then .err "does not have access to model"
            else .err "invalid api key") 3 =
        ⟨2, [1], .embedError "invalid api key"⟩ := by
  refine ⟨?_, ?_, ?_⟩
  · have h := (claim_C4_embedding_retry
        (fun _ => .err "org does not have access to model x") 3 (by omega)).1
      (by decide)
    rw [h]
    rfl
  · exact (claim_C4_embedding_retry
        (fun i => if i < 2 then .err "does not have access to model" else .ok)
        3 (by omega)).2.1 2 (by omega) (by decide) (by decide)
  · have h := (claim_C4_embedding_retry
        (fun i => if i = 0 then .err "does not have access to model"
          else .err "invalid api key") 3 (by omega)).2.2 1 "invalid api key"
      (by omega) (by decide) (by decide) (by decide)
    rw [h]
    rfl

/-! ## Query answerer

Embeds `query_codebase` in `src/rag_pipeline.py`: the chain invocation
is retried on the model-access-pending signature, any other failure is
converted into an in-band error answer, and the success path passes the
answer and source documents through unchanged.
-/

/-- The result returned to the caller of `query_codebase`: the answer
string and the supporting source documents. -/
structure QueryResult where
  answer : String
  source_documents : List Doc
deriving DecidableEq

/-- The outcome of one chain invocation: a result with answer text and
retrieved source documents, or an exception with its message. -/
inductive QueryAttempt where
  | ok (answer : String) (docs : List Doc)
  | err (msg : String)
deriving DecidableEq

/-- The pending signature tested by `query_codebase`: the message
contains the access-propagation substring. -/
def isPendingQueryMsg (msg : String) : Bool :=
  hasSub "does not have access to model".data msg.data

/-- Whether one query attempt outcome is the pending failure. -/
def isPendingQueryAttempt : QueryAttempt → Bool
  | .ok _ _ => false
  | .err msg => isPendingQueryMsg msg

/-- The user-facing answer returned after exhausting retries on the
pending signature. -/
def pendingAnswer : String :=
  "The OpenAI API access is still being activated. This typically takes 5-10 minutes after enabling access. Please try again in a few minutes."

/-- The retry loop of `query_codebase`, iterating over the remaining
attempt indices of range max_retries. Returns `none` only when the
loop body never runs (max_retries = 0, where the Python source falls
off the loop and returns None). -/
def queryGo (outcomes : Nat → QueryAttempt) (maxRetries : Nat) :
    List Nat → Option QueryResult
  | [] => none
  | attempt :: rest =>
    match outcomes attempt with
    | .ok ans docs => some ⟨ans, docs⟩
    | .err msg =>
      if isPendingQueryMsg msg then
        if attempt < maxRetries - 1 then
          queryGo outcomes maxRetries rest
        else some ⟨pendingAnswer, []⟩
      else some ⟨"Error processing query: " ++ msg, []⟩

/-- `query_codebase` from `src/rag_pipeline.py`. -/
def query_codebase (outcomes : Nat → QueryAttempt) (maxRetries : Nat) :
    Option QueryResult :=
  queryGo outcomes maxRetries (List.range maxRetries)

theorem queryGo_cases (outcomes : Nat → QueryAttempt) (maxRetries : Nat) :
    ∀ (j k a : Nat), j < k → a + k = maxRetries →
      (∀ i, a ≤ i → i < a + j →
        isPendingQueryAttempt (outcomes i) = true) →
      ((∀ msg, outcomes (a + j) = .err msg → isPendingQueryMsg msg = false →
        queryGo outcomes maxRetries (List.range' a k) =
          some ⟨"Error processing query: " ++ msg, []⟩) ∧
       (∀ ans docs, outcomes (a + j) = .ok ans docs →
        queryGo outcomes maxRetries (List.range' a k) =
          some ⟨ans, docs⟩)) := by
  intro j
  induction j with
  | zero =>
    intro k a hjk hsum _
    cases k with
    | zero => omega
    | succ m =>
      constructor
      · intro msg herr hnp
        rw [Nat.add_zero] at herr
        rw [List.range'_succ]
        simp only [queryGo, herr, hnp, Bool.false_eq_true, if_false]
      · intro ans docs hok
        rw [Nat.add_zero] at hok
        rw [List.range'_succ]
        simp only [queryGo, hok]
  | succ j2 ih =>
    intro k a hjk hsum hpend
    have hp : isPendingQueryAttempt (outcomes a) = true := by
      apply hpend a (Nat.le_refl a); omega
    cases k with
    | zero => omega
    | succ m =>
      have hrec := ih m (a + 1) (by omega) (by omega)
        (fun i h1 h2 => hpend i (by omega) (by omega))
      have hlt : a < maxRetries - 1 := by omega
      cases hout : outcomes a with
      | ok ans0 docs0 => rw [hout] at hp; simp [isPendingQueryAttempt] at hp
      | err m0 =>
        rw [hout] at hp
        simp only [isPendingQueryAttempt] at hp
        constructor
        · intro msg herr hnp
          rw [List.range'_succ]
          simp only [queryGo, hout]
          rw [if_pos hp, if_pos hlt]
          exact hrec.1 msg
            (by rw [show a + 1 + j2 = a + (j2 + 1) by omega]; exact herr) hnp
        · intro ans docs hok
          rw [List.range'_succ]
          simp only [queryGo, hout]
          rw [if_pos hp, if_pos hlt]
          exact hrec.2 ans docs
            (by rw [show a + 1 + j2 = a + (j2 + 1) by omega]; exact hok)

theorem queryGo_all_pending (outcomes : Nat → QueryAttempt)
    (maxRetries : Nat) :
    ∀ (k a : Nat), a + k = maxRetries → 1 ≤ k →
      (∀ i, a ≤ i → i < maxRetries →
        isPendingQueryAttempt (outcomes i) = true) →
      queryGo outcomes maxRetries (List.range' a k) =
        some ⟨pendingAnswer, []⟩ := by
  intro k
  induction k with
  | zero => omega
  | succ m ih =>
    intro a hsum _ hpend
    have hp : isPendingQueryAttempt (outcomes a) = true := by
      apply hpend a (Nat.le_refl a); omega
    cases hout : outcomes a with
    | ok ans0 docs0 => rw [hout] at hp; simp [isPendingQueryAttempt] at hp
    | err msg =>
      rw [hout] at hp
      simp only [isPendingQueryAttempt] at hp
      rw [List.range'_succ]
      simp only [queryGo, hout]
      rw [if_pos hp]
      cases m with
      | zero =>
        have hnl : ¬ a < maxRetries - 1 := by omega
        rw [if_neg hnl]
      | succ m2 =>
        have hlt : a < maxRetries - 1 := by omega
        rw [if_pos hlt]
        exact ih (a + 1) (by omega) (by omega)
          (fun i h1 h2 => hpend i (by omega) h2)

/-- Claim C5: with at least one allowed attempt, (a) if the answering
call fails with a non-pending error (possibly after pending failures),
`query_codebase` returns, rather than raises, a result whose answer
contains the error message and whose source-document list is empty;
(b) if every attempt fails with the pending signature, it returns the
user-facing explanatory message with an empty source-document list. -/
theorem claim_C5_query_error_handling (outcomes : Nat → QueryAttempt)
    (maxRetries : Nat) (hpos : 1 ≤ maxRetries) :
    (∀ j msg, j < maxRetries →
      (∀ i, i < j → isPendingQueryAttempt (outcomes i) = true) →
      outcomes j = .err msg → isPendingQueryMsg msg = false →
      ∃ r, query_codebase outcomes maxRetries = some r ∧
        hasSub msg.data r.answer.data = true ∧ r.source_documents = []) ∧
    ((∀ i, i < maxRetries → isPendingQueryAttempt (outcomes i) = true) →
      query_codebase outcomes maxRetries =
        some ⟨pendingAnswer, []⟩) := by
  constructor
  · intro j msg hj hpend herr hnp
    refine ⟨⟨"Error processing query: " ++ msg, []⟩, ?_, ?_, rfl⟩
    · rw [query_codebase, List.range_eq_range']
      exact (queryGo_cases outcomes maxRetries j maxRetries 0 hj (by omega)
          (fun i _ h2 => hpend i (by omega))).1 msg
        (by rw [Nat.zero_add]; exact herr) hnp
    · show hasSub msg.data (("Error processing query: " ++ msg) : String).data = true
      rw [String.data_append]
      exact hasSub_append msg.data "Error processing query: ".data
  · intro hpend
    rw [query_codebase, List.range_eq_range']
    exact queryGo_all_pending outcomes maxRetries maxRetries 0 (by omega)
      hpos (fun i _ h2 => hpend i h2)

/-- Witness for C5: with max_retries 3, a hard failure on the first
attempt yields an in-band error answer embedding the message with no
source documents, and three pending failures yield the user-facing
pending answer with no source documents. -/
theorem claim_C5_witness :
    (∃ r, query_codebase (fun _ => .err "invalid api key") 3 = some r ∧
      hasSub "invalid api key".data r.answer.data = true ∧
      r.source_documents = []) ∧
    query_codebase (fun _ => .err "team does not have access to model z") 3 =
      some ⟨pendingAnswer, []⟩ :=
  ⟨(claim_C5_query_error_handling (fun _ => .err "invalid api key") 3
      (by omega)).1 0 "invalid api key" (by omega) (by omega) rfl (by decide),
   (claim_C5_query_error_handling
      (fun _ => .err "team does not have access to model z") 3
      (by omega)).2 (by decide)⟩

/-! ## Retrieval configuration

The similarity search itself is performed by the external vector-store
collaborator; `src/rag_pipeline.py` configures it with k = 5 (and a
candidate pool fetch_k = 8) and `query_codebase` returns the retrieved
source documents unchanged.
-/

/-- The retrieval depth `k` configured on the retriever in
`src/rag_pipeline.py`. -/
def retrievalK : Nat := 5

/-- Modelled from the spec: the top-k similarity retrieval of the
external in-memory vector index, which is not part of `src/`. Given
candidate chunks with similarity scores, it returns the k most similar
chunks in descending order of similarity. -/
def topKRetrieve (k : Nat) (scored : List (String × Nat)) : List String :=
  ((scored.insertionSort fun a b => b.2 ≤ a.2).take k).map fun c => c.1

/-- Claim C8: a successful query returns as evidence exactly the list
of retrieved source documents, unchanged and in order; the modelled
top-k retrieval returns at most k chunks; and on an index built from
chunks X, Y, Z where the two nearest neighbors of the query are Y then
X, retrieval with k = 2 returns exactly Y then X. -/
theorem claim_C8_topk_evidence :
    (∀ (outcomes : Nat → QueryAttempt) (maxRetries : Nat)
      (ans : String) (docs : List Doc), 1 ≤ maxRetries →
      outcomes 0 = .ok ans docs →
      query_codebase outcomes maxRetries = some ⟨ans, docs⟩) ∧
    (∀ (k : Nat) (scored : List (String × Nat)),
      (topKRetrieve k scored).length = min k scored.length) ∧
    topKRetrieve 2 [("X", 5), ("Y", 9), ("Z", 1)] = ["Y", "X"] := by
  refine ⟨?_, ?_, by decide⟩
  · intro outcomes maxRetries ans docs hpos hok
    rw [query_codebase, List.range_eq_range']
    exact (queryGo_cases outcomes maxRetries 0 maxRetries 0 (by omega)
        (by omega) (by omega)).2 ans docs
      (by rw [Nat.zero_add]; exact hok)
  · intro k scored
    rw [topKRetrieve, List.length_map, List.length_take,
      List.length_insertionSort]

/-- Witness for C8: a concrete successful query returns its retrieved
documents unchanged. -/
theorem claim_C8_witness :
    query_codebase
        (fun _ => .ok "the answer" [⟨"chunk".data, "a.py", "a.py", 0⟩]) 3 =
      some ⟨"the answer", [⟨"chunk".data, "a.py", "a.py", 0⟩]⟩ :=
  claim_C8_topk_evidence.1
    (fun _ => .ok "the answer" [⟨"chunk".data, "a.py", "a.py", 0⟩]) 3
    "the answer" [⟨"chunk".data, "a.py", "a.py", 0⟩] (by omega) rfl

/-! ## URL validation

Embeds `extract_repo_info` and the URL-handling branch of `main` in
`src/main.py`. The regular expression searched is
github backslash-dot com slash, then a nonempty run of non-slash
characters, a slash, and a second nonempty run of non-slash characters,
with the two runs captured as owner and repository name.
-/

/-- Attempts the owner/repo part of the pattern right after a matched
github.com/ literal: a nonempty maximal run of non-slash characters, a
slash, then a second nonempty maximal run of non-slash characters. -/
def matchAfterHost (cs : List Char) : Option (String × String) :=
  if (cs.takeWhile fun c => c ≠ '/').isEmpty then none
  else
    match cs.drop (cs.takeWhile fun c => c ≠ '/').length with
    | c :: rest2 =>
      if c = '/' then
        if (rest2.takeWhile fun c2 => c2 ≠ '/').isEmpty then none
        else some (⟨cs.takeWhile fun c => c ≠ '/'⟩,
          ⟨rest2.takeWhile fun c2 => c2 ≠ '/'⟩)
      else none
    | [] => none

/-- The search of `re.search`: try every start position left to right;
at positions where the literal github.com/ matches, attempt the capture
groups, and on group failure continue searching at later positions. -/
def searchRepo : List Char → Option (String × String)
  | [] => none
  | c :: rest =>
    if listStartsWith "github.com/".data (c :: rest) then
      match matchAfterHost ((c :: rest).drop "github.com/".data.length) with
      | some p => some p
      | none => searchRepo rest
    else searchRepo rest

/-- `extract_repo_info` from `src/main.py`: returns the owner and
repository name captured from the URL, or nothing when the pattern does
not match anywhere. -/
def extract_repo_info (url : String) : Option (String × String) :=
  searchRepo url.data

/-- What `main` does with a submitted URL: process the repository
(the only path that reaches the network) or show the invalid-URL error.
The truthiness test of the source on the extracted parts is the
emptiness test on the two strings. -/
inductive MainAction where
  | processRepo (owner repo : String)
  | showError (msg : String)
deriving DecidableEq

/-- The URL-handling branch of `main` in `src/main.py`. -/
def handleUrl (url : String) : MainAction :=
  match extract_repo_info url with
  | some (o, r) =>
    if o.isEmpty || r.isEmpty then
      .showError "Invalid GitHub repository URL format"
    else .processRepo o r
  | none => .showError "Invalid GitHub repository URL format"

/-- Whether an action of `main` performs any network call: only
processing the repository does. -/
def makesNetworkCall : MainAction → Bool
  | .processRepo _ _ => true
  | .showError _ => false

theorem matchAfterHost_nonempty (cs : List Char) (o r : String)
    (h : matchAfterHost cs = some (o, r)) :
    o ≠ "" ∧ r ≠ "" := by
  rw [matchAfterHost] at h
  by_cases ho : (cs.takeWhile fun c => c ≠ '/').isEmpty
  · rw [if_pos ho] at h
    exact absurd h (by simp)
  · rw [if_neg ho] at h
    cases hd : cs.drop (cs.takeWhile fun c => c ≠ '/').length with
    | nil =>
      rw [hd] at h
      exact absurd h (by simp)
    | cons c2 rest2 =>
      rw [hd] at h
      dsimp only at h
      by_cases hc2 : c2 = '/'
      · rw [if_pos hc2] at h
        by_cases hr : (rest2.takeWhile fun c2 => c2 ≠ '/').isEmpty
        · rw [if_pos hr] at h
          exact absurd h (by simp)
        · rw [if_neg hr] at h
          simp only [Option.some.injEq, Prod.mk.injEq] at h
          obtain ⟨ho2, hr2⟩ := h
          constructor
          · rw [← ho2]
            intro hcon
            apply ho
            rw [List.isEmpty_iff]
            exact congrArg String.data hcon
          · rw [← hr2]
            intro hcon
            apply hr
            rw [List.isEmpty_iff]
            exact congrArg String.data hcon
      · rw [if_neg hc2] at h
        exact absurd h (by simp)

theorem searchRepo_nonempty (cs : List Char) (o r : String)
    (h : searchRepo cs = some (o, r)) : o ≠ "" ∧ r ≠ "" := by
  induction cs with
  | nil => exact absurd h (by simp [searchRepo])
  | cons c rest ih =>
    rw [searchRepo] at h
    by_cases hs : listStartsWith "github.com/".data (c :: rest) = true
    · rw [if_pos hs] at h
      cases hm : matchAfterHost ((c :: rest).drop "github.com/".data.length) with
      | none => rw [hm] at h; exact ih h
      | some p =>
        rw [hm] at h
        have hp : p = (o, r) := Option.some.injEq .. ▸ h
        exact matchAfterHost_nonempty _ o r (hp ▸ hm)
    · rw [if_neg hs] at h
      exact ih h

/-- Claim C9: when no nonempty owner and repository can be parsed from
the URL under the github.com/owner/repo pattern, `main` shows the
invalid-URL error and performs no network call; when the pattern
parses, both captured components are nonempty strings. -/
theorem claim_C9_url_validation (url : String) :
    (extract_repo_info url = none →
      handleUrl url = .showError "Invalid GitHub repository URL format" ∧
        makesNetworkCall (handleUrl url) = false) ∧
    (∀ o r, extract_repo_info url = some (o, r) → o ≠ "" ∧ r ≠ "") := by
  constructor
  · intro hn
    rw [handleUrl, hn]
    exact ⟨rfl, rfl⟩
  · intro o r hs
    exact searchRepo_nonempty url.data o r hs

/-- Witness for C9: a non-matching URL produces the error action with
no network call, and a matching URL produces nonempty components. -/
theorem claim_C9_witness :
    (handleUrl "not a url" =
        .showError "Invalid GitHub repository URL format" ∧
      makesNetworkCall (handleUrl "not a url") = false) ∧
    (("octo" : String) ≠ "" ∧ ("hello" : String) ≠ "") :=
  ⟨(claim_C9_url_validation "not a url").1 (by decide),
   (claim_C9_url_validation "https://github.com/octo/hello").2
     "octo" "hello" (by decide)⟩

end CodeQA
